import Mathlib

/-!
Verification of the text-segmentation engine (`app/core/chunker.py`) and the
retrieval / ingestion orchestration (`app/core/vector_store.py`,
`app/services/retriever.py`, `app/services/ingestion.py`,
`app/api/query.py`) of the rag-doc-qa repository.

Python strings are embedded as `List Char`; Python machine integers that the
claims quantify over are non-negative and are embedded as `Nat`; the
distance / similarity real arithmetic of the vector store is embedded over `ℚ`.
Fallible or possibly non-terminating code paths return `Option` / `Except`:
`none` models a raised exception or divergence.
-/

abbrev Str := List Char

/-- Python `str.isspace` characters relevant to `str.strip()` /
`str.split()` behaviour used by the chunker. -/
def pyIsSpace (c : Char) : Bool :=
  c == ' ' || c == '\t' || c == '\n' || c == '\x0b' || c == '\x0c' || c == '\r'

/-- Python `str.strip()`: drop leading and trailing whitespace. -/
def strip (s : Str) : Str :=
  ((s.dropWhile pyIsSpace).reverse.dropWhile pyIsSpace).reverse

/-- Predicate `startsWith pat s`: holds when `pat` begins the list `s`
(used to locate separator occurrences, as Python `str.split` does). -/
def startsWith : Str → Str → Bool
  | [], _ => true
  | _ :: _, [] => false
  | a :: as, b :: bs => a == b && startsWith as bs

/-- Worker for `pySplit`: scans left to right, cutting at every occurrence of
the (non-empty) separator `sep`, exactly like Python `str.split(sep)`.
The scan consumes at least one character per step, so the `Nat` index (a
recursion-depth fuel that keeps the definition structurally recursive) never
runs out when it starts at the length of the scanned string and `sep` is
non-empty; `splitSepF_fuel_irrelevant` below proves the dead branch dead. -/
def splitSepF (sep : Str) : Nat → Str → Str → List Str
  | _, [], acc => [acc.reverse]
  | 0, _ :: _, acc => [acc.reverse]
  | fuel + 1, c :: rest, acc =>
    if startsWith sep (c :: rest) then
      acc.reverse :: splitSepF sep fuel ((c :: rest).drop sep.length) []
    else
      splitSepF sep fuel rest (c :: acc)

/-- Python `text.split(sep)` for a non-empty separator
(the empty separator is a `ValueError` in Python and is never reached:
the chunker handles the empty separator by listing single characters). -/
def pySplit (sep : Str) (s : Str) : List Str :=
  if sep = [] then [s] else splitSepF sep s.length s []

/-- Any fuel at least the length of the scanned string computes the same
split, so `pySplit`'s choice of fuel is canonical and its zero-fuel branch is
unreachable for a non-empty separator. -/
theorem splitSepF_fuel_irrelevant (sep : Str) (hs : sep ≠ []) :
    ∀ (fuel₁ fuel₂ : Nat) (s acc : Str), s.length ≤ fuel₁ → s.length ≤ fuel₂ →
      splitSepF sep fuel₁ s acc = splitSepF sep fuel₂ s acc := by
  intro fuel₁
  induction fuel₁ with
  | zero =>
    intro fuel₂ s acc h1 _
    have : s = [] := List.length_eq_zero.mp (Nat.le_zero.mp h1)
    subst this
    cases fuel₂ <;> rfl
  | succ n ih =>
    intro fuel₂ s acc h1 h2
    cases s with
    | nil => cases fuel₂ <;> rfl
    | cons c rest =>
      cases fuel₂ with
      | zero => exact absurd h2 (by simp)
      | succ m =>
        have hsep : 1 ≤ sep.length := by
          cases sep with
          | nil => exact absurd rfl hs
          | cons a as => exact Nat.succ_le_succ (Nat.zero_le _)
        simp only [splitSepF]
        by_cases hpre : startsWith sep (c :: rest) = true
        · simp only [hpre, if_true]
          have hlen : ((c :: rest).drop sep.length).length ≤ n := by
            simp only [List.length_drop, List.length_cons]
            simp only [List.length_cons] at h1
            omega
          have hlen2 : ((c :: rest).drop sep.length).length ≤ m := by
            simp only [List.length_drop, List.length_cons]
            simp only [List.length_cons] at h2
            omega
          rw [ih m _ [] hlen hlen2]
        · simp only [hpre, Bool.false_eq_true, if_false]
          have hlen : rest.length ≤ n := by
            simp only [List.length_cons] at h1; omega
          have hlen2 : rest.length ≤ m := by
            simp only [List.length_cons] at h2; omega
          rw [ih m rest (c :: acc) hlen hlen2]

/-- The list `Chunker.SEPARATORS`: paragraph break, line break, sentence ending,
word boundary, characters (last resort). -/
def SEPARATORS : List Str :=
  [['\n', '\n'], ['\n'], ['.', ' '], [' '], []]

/-- The `Chunker` configuration (`chunk_size`, `chunk_overlap`). -/
structure Chunker where
  chunk_size : Nat
  chunk_overlap : Nat
deriving DecidableEq, Repr

def overlapErrMsg : String := "chunk_overlap must be less than chunk_size"

/-- Constructor `Chunker.__init__`: the only validation is
`if chunk_overlap >= chunk_size: raise ValueError(...)`. -/
def Chunker.make (chunk_size chunk_overlap : Nat) : Except String Chunker :=
  if chunk_overlap ≥ chunk_size then Except.error overlapErrMsg
  else Except.ok ⟨chunk_size, chunk_overlap⟩

/-- The piece-merging loop of `Chunker._split_text` (the `for piece in pieces`
loop), acting on the state `(chunks, current)`.  `recur` is the recursive call
`self._split_text(piece, remaining_separators)` and `hasRem` the truthiness of
`remaining_separators`.  Note that in the recursion branch the source appends
`current` to `chunks` but does not reset it. -/
def mergePieces (size : Nat) (sep : Str) (recur : Str → Option (List Str))
    (hasRem : Bool) : List Str → List Str → Str → Option (List Str × Str)
  | [], chunks, current => some (chunks, current)
  | piece :: ps, chunks, current =>
    let candidate := if current = [] then piece else current ++ sep ++ piece
    if candidate.length ≤ size then
      mergePieces size sep recur hasRem ps chunks candidate
    else
      let chunks1 := if current = [] then chunks else chunks ++ [current]
      if size < piece.length ∧ hasRem then
        match recur piece with
        | none => none
        | some subs => mergePieces size sep recur hasRem ps (chunks1 ++ subs) current
      else
        mergePieces size sep recur hasRem ps chunks1 piece

/-- The function `Chunker._split_text(text, separators)`, indexed by a recursion-depth fuel.
`none` models a Python exception (empty separator list reaching
`separators[0]`) or unbounded recursion; fuel `5 = SEPARATORS.length` is
proved sufficient for every input under a positive `chunk_size`. -/
def splitTextF (size : Nat) : Nat → Str → List Str → Option (List Str)
  | 0, _, _ => none
  | fuel + 1, text, seps =>
    if text.length ≤ size then
      some (if strip text = [] then [] else [text])
    else
      match seps with
      | [] => none
      | sep :: rest =>
        let remaining := if rest = [] then [sep] else rest
        let pieces := if sep = [] then text.map (fun c => [c]) else pySplit sep text
        (mergePieces size sep (fun p => splitTextF size fuel p remaining)
            (!remaining.isEmpty) pieces [] []).map
          (fun st => if strip st.2 = [] then st.1 else st.1 ++ [st.2])

/-- Python `prev[-k:]` (for the overlap slice): the whole string when `k = 0`,
otherwise the trailing `min k (length prev)` characters. -/
def pyTailSlice (k : Nat) (s : Str) : Str :=
  if k = 0 then s else s.drop (s.length - k)

/-- The overlap slice taken from the previous chunk in `Chunker._add_overlap`:
the trailing `chunk_overlap` characters, advanced past the first space found
within that slice when one exists. -/
def ovSlice (overlap : Nat) (prev : Str) : Str :=
  let t := pyTailSlice overlap prev
  match t.findIdx? (fun c => c == ' ') with
  | some i => t.drop (i + 1)
  | none => t

/-- The `for i in range(1, len(chunks))` loop of `Chunker._add_overlap`:
`prev` is always the original previous chunk. -/
def addOverlapGo (overlap : Nat) : Str → List Str → List Str
  | _, [] => []
  | prev, cur :: more =>
    (ovSlice overlap prev ++ ' ' :: cur) :: addOverlapGo overlap cur more

/-- The function `Chunker._add_overlap(chunks)`.  Only invoked on lists of length `> 1`;
on `[]` (where Python would raise on `chunks[0]`) we return `[]`. -/
def Chunker.addOverlap (c : Chunker) : List Str → List Str
  | [] => []
  | c0 :: rest => c0 :: addOverlapGo c.chunk_overlap c0 rest

/-- Entry point `Chunker.chunk(text)`: empty-after-strip input yields `[]`; otherwise
`_split_text` with the full separator list, overlap injection when
`chunk_overlap > 0` and more than one chunk resulted, and a final
strip-and-drop-empties pass. -/
def Chunker.chunk (c : Chunker) (text : Str) : Option (List Str) :=
  if strip text = [] then some []
  else
    (splitTextF c.chunk_size 5 text SEPARATORS).map (fun raw =>
      let raw2 := if 0 < c.chunk_overlap ∧ 1 < raw.length then c.addOverlap raw else raw
      (raw2.map strip).filter (fun s => !s.isEmpty))

/-! ## Vector store (`app/core/vector_store.py`) -/

/-- One raw result of the search port (ChromaDB `query`): a cosine
*distance* (0 = identical) with the stored text and its metadata, the
metadata left opaque. -/
structure RawHit where
  text : String
  distance : ℚ
  meta : Nat
deriving DecidableEq, Repr

/-- One consumer-facing result of `VectorStore.search`: a *similarity*
score (1 = identical). -/
structure Hit where
  text : String
  score : ℚ
  meta : Nat
deriving DecidableEq, Repr

/-- Python `round(x, 4)` over exact rational arithmetic:
`floor (x * 10^4 + 1/2) / 10^4`.  (Python's float `round` breaks exact
`.00005` ties to even; no theorem below touches a tie.) -/
def round4 (q : ℚ) : ℚ := (⌊q * 10000 + 1 / 2⌋ : ℚ) / 10000

/-- The result-conversion loop of `VectorStore.search`, applied to the raw
hits the search port returned (in the port's order):
`similarity = 1.0 - distance`, `score = round(similarity, 4)`. -/
def VectorStore.search (raw : List RawHit) : List Hit :=
  raw.map (fun h => { text := h.text, score := round4 (1 - h.distance), meta := h.meta })

/-! ## Retriever service (`app/services/retriever.py`) and the streaming
endpoint (`app/api/query.py`) -/

def noDocsMessage : String := "No documents found. Please upload some documents first."

/-- A passage summary in a response's `sources` list:
`{"text": preview, "score": round(score, 4), "metadata": ...}`. -/
structure Passage where
  text : String
  score : ℚ
  meta : Nat
deriving DecidableEq, Repr

def ellipsis : String := "..."

/-- Python `r["text"][:200] + "..." if len(r["text"]) > 200 else r["text"]`. -/
def truncPreview (t : String) : String :=
  if t.length > 200 then t.take 200 ++ ellipsis else t

/-- Build one entry of the `sources` list in `RetrieverService.ask` /
`ask_stream`. -/
def summarize (r : Hit) : Passage :=
  { text := truncPreview r.text, score := round4 r.score, meta := r.meta }

/-- The blocking-mode result of `RetrieverService.ask`, with a count of the
invocations of the answer-generation port (`llm_service.generate`). -/
structure AskResult where
  answer : String
  sources : List Passage
  llmCalls : Nat
deriving DecidableEq, Repr

/-- Blocking mode `RetrieverService.ask`, parameterised by the vector-store search output
`results` and the generation port `gen` (embedding of the question is the
embedding port's concern and only feeds the search; the search output is
taken as the input here). -/
def RetrieverService.ask (question : String) (results : List Hit)
    (gen : String → List String → String) : AskResult :=
  if results.isEmpty then
    { answer := noDocsMessage, sources := [], llmCalls := 0 }
  else
    { answer := gen question (results.map (fun r => r.text))
      sources := results.map summarize
      llmCalls := 1 }

/-- One item yielded by the generator `RetrieverService.ask_stream`: a dict
(carrying the `sources` list) or a plain string token. -/
inductive StreamItem where
  | sources (s : List Passage)
  | token (t : String)
deriving DecidableEq, Repr

/-- Streaming mode `RetrieverService.ask_stream`, parameterised by the search output and by
the token sequence the generation port's incremental form yields; returns the
yielded items together with the number of `generate_stream` invocations. -/
def RetrieverService.askStream (results : List Hit) (tokens : List String) :
    List StreamItem × Nat :=
  if results.isEmpty then
    ([StreamItem.sources [], StreamItem.token noDocsMessage], 0)
  else
    (StreamItem.sources (results.map summarize) :: tokens.map StreamItem.token, 1)

/-- A server-sent event produced by the `/query/stream` endpoint. -/
inductive Event where
  | sources (s : List Passage)
  | token (t : String)
  | done
deriving DecidableEq, Repr

/-- The per-item dispatch of `event_stream` in `ask_question_stream`:
a dict yield becomes a `sources` event, a string yield a `token` event. -/
def sseOfItem : StreamItem → Event
  | StreamItem.sources s => Event.sources s
  | StreamItem.token t => Event.token t

/-- The endpoint generator `event_stream`: every item of `ask_stream` dispatched through
`sseOfItem`, then the final `done` event. -/
def eventStream (items : List StreamItem) : List Event :=
  items.map sseOfItem ++ [Event.done]

def isSourcesEvent : Event → Bool
  | Event.sources _ => true
  | _ => false

def isDoneEvent : Event → Bool
  | Event.done => true
  | _ => false

def tokenOf? : Event → Option String
  | Event.token t => some t
  | _ => none

/-! ## Ingestion service (`app/services/ingestion.py`) -/

def successStatus : String := "success"

/-- The dict returned by `IngestionService.ingest_pdf`. -/
structure IngestResult where
  document_id : String
  filename : String
  chunk_count : Nat
  collection : String
  status : String
deriving DecidableEq, Repr

/-- The pipeline `IngestionService.ingest_pdf`, parameterised by the extracted text (the
output of the external `extract_text_from_pdf`, which raises before this
pipeline runs when the PDF has no extractable text) and by the freshly minted
`document_id`.  The embedding and store ports are external; `add_chunks`
stores exactly the chunk list.  Note the source performs no emptiness check
on the chunk list: it proceeds to store zero chunks and report success. -/
def IngestionService.ingestPdf (c : Chunker) (docId filename collection : String)
    (text : Str) : Option IngestResult :=
  (c.chunk text).map (fun chunks =>
    { document_id := docId
      filename := filename
      chunk_count := chunks.length
      collection := collection
      status := successStatus })

/-! ## Helper lemmas about the segmenter -/

theorem strip_length_le (s : Str) : (strip s).length ≤ s.length := by
  unfold strip
  calc ((s.dropWhile pyIsSpace).reverse.dropWhile pyIsSpace).reverse.length
      = ((s.dropWhile pyIsSpace).reverse.dropWhile pyIsSpace).length := by
        rw [List.length_reverse]
    _ ≤ (s.dropWhile pyIsSpace).reverse.length :=
        (List.dropWhile_sublist pyIsSpace).length_le
    _ = (s.dropWhile pyIsSpace).length := by rw [List.length_reverse]
    _ ≤ s.length := (List.dropWhile_sublist pyIsSpace).length_le

/-- Invariant of the merging loop: if the accumulated chunks and the running
accumulator are within `size`, the recursive splitter only returns chunks
within `size`, and a finer separator remains, then every chunk of the final
state is within `size`. -/
theorem mergePieces_bound (size : Nat) (sep : Str) (recur : Str → Option (List Str))
    (hrec : ∀ p r, recur p = some r → ∀ x ∈ r, x.length ≤ size) :
    ∀ (pieces chunks : List Str) (current : Str) (res : List Str × Str),
      (∀ x ∈ chunks, x.length ≤ size) → current.length ≤ size →
      mergePieces size sep recur true pieces chunks current = some res →
      (∀ x ∈ res.1, x.length ≤ size) ∧ res.2.length ≤ size := by
  intro pieces
  induction pieces with
  | nil =>
    intro chunks current res hchunks hcur h
    simp only [mergePieces, Option.some.injEq] at h
    subst h
    exact ⟨hchunks, hcur⟩
  | cons piece ps ih =>
    intro chunks current res hchunks hcur h
    simp only [mergePieces] at h
    by_cases hc : (if current = [] then piece else current ++ sep ++ piece).length ≤ size
    · rw [if_pos hc] at h
      exact ih chunks _ res hchunks hc h
    · rw [if_neg hc] at h
      have hchunks1 : ∀ x ∈ (if current = [] then chunks else chunks ++ [current]),
          x.length ≤ size := by
        intro x hx
        by_cases hcur0 : current = []
        · rw [if_pos hcur0] at hx; exact hchunks x hx
        · rw [if_neg hcur0] at hx
          rcases List.mem_append.mp hx with hx | hx
          · exact hchunks x hx
          · rcases List.mem_singleton.mp hx with rfl; exact hcur
      by_cases hbig : size < piece.length
      · rw [if_pos (by simpa using hbig)] at h
        cases hr : recur piece with
        | none => rw [hr] at h; exact absurd h (by simp)
        | some subs =>
          rw [hr] at h
          have hsubs : ∀ x ∈ subs, x.length ≤ size := hrec piece subs hr
          have hall : ∀ x ∈ (if current = [] then chunks else chunks ++ [current]) ++ subs,
              x.length ≤ size := by
            intro x hx
            rcases List.mem_append.mp hx with hx | hx
            · exact hchunks1 x hx
            · exact hsubs x hx
          exact ih _ current res hall hcur h
      · rw [if_neg (by simpa using hbig)] at h
        have hpiece : piece.length ≤ size := Nat.le_of_not_lt hbig
        exact ih _ piece res hchunks1 hpiece h

/-- Every chunk `_split_text` returns has length at most `chunk_size`: an
oversized piece always finds a finer separator (the separator list handed down
is never empty), so the "emit an indivisible oversized piece verbatim" branch
is unreachable. -/
theorem splitTextF_bound (size : Nat) :
    ∀ (fuel : Nat) (text : Str) (seps cs : List Str),
      splitTextF size fuel text seps = some cs → ∀ x ∈ cs, x.length ≤ size := by
  intro fuel
  induction fuel with
  | zero => intro text seps cs h; exact absurd h (by simp [splitTextF])
  | succ n ih =>
    intro text seps cs h
    rw [splitTextF.eq_def] at h
    simp only at h
    by_cases hsmall : text.length ≤ size
    · rw [if_pos hsmall] at h
      by_cases hstr : strip text = []
      · simp only [hstr, if_pos rfl, Option.some.injEq] at h
        subst h; intro x hx; cases hx
      · rw [if_neg hstr] at h
        simp only [Option.some.injEq] at h
        subst h
        intro x hx
        rcases List.mem_singleton.mp hx with rfl
        exact hsmall
    · rw [if_neg hsmall] at h
      cases seps with
      | nil => exact absurd h (by simp)
      | cons sep rest =>
        simp only at h
        have hHasRem :
            (!(if rest = [] then [sep] else rest).isEmpty) = true := by
          cases rest with
          | nil => rfl
          | cons a as => rfl
        rw [hHasRem] at h
        rcases Option.map_eq_some'.mp h with ⟨st, hm, hcs⟩
        obtain ⟨chunks, current⟩ := st
        have hb := mergePieces_bound size sep
          (fun p => splitTextF size n p (if rest = [] then [sep] else rest))
          (fun p r hr => ih p _ r hr) _ [] [] (chunks, current)
          (by intro x hx; cases hx) (by simp) hm
        by_cases hc : strip current = []
        · simp only [hc, if_pos rfl] at hcs
          subst hcs; exact hb.1
        · rw [if_neg hc] at hcs
          subst hcs
          intro x hx
          rcases List.mem_append.mp hx with hx | hx
          · exact hb.1 x hx
          · rcases List.mem_singleton.mp hx with rfl
            exact hb.2

theorem pyTailSlice_length_le (k : Nat) (hk : 0 < k) (s : Str) :
    (pyTailSlice k s).length ≤ k := by
  unfold pyTailSlice
  rw [if_neg (Nat.pos_iff_ne_zero.mp hk)]
  rw [List.length_drop]
  omega

/-- The overlap slice is a suffix of the raw trailing slice (it only advances
the start past the first space, or keeps the raw slice when no space exists). -/
theorem ovSlice_suffix (k : Nat) (prev : Str) :
    (ovSlice k prev).IsSuffix (pyTailSlice k prev) := by
  cases h : (pyTailSlice k prev).findIdx? (fun c => c == ' ') with
  | none =>
    simp only [ovSlice, h]
    exact List.suffix_refl _
  | some i =>
    simp only [ovSlice, h]
    exact List.drop_suffix _ _

theorem ovSlice_length_le (k : Nat) (hk : 0 < k) (prev : Str) :
    (ovSlice k prev).length ≤ k :=
  Nat.le_trans (ovSlice_suffix k prev).sublist.length_le (pyTailSlice_length_le k hk prev)

/-- Every element the `_add_overlap` loop produces is an overlap slice of the
previous original chunk, a space, and the current original chunk. -/
theorem addOverlapGo_get? (overlap : Nat) :
    ∀ (l : List Str) (prev : Str) (i : Nat), i < l.length →
      (addOverlapGo overlap prev l).get? i =
        some (ovSlice overlap ((prev :: l).getD i []) ++ ' ' :: l.getD i []) := by
  intro l
  induction l with
  | nil => intro prev i hi; cases hi
  | cons cur more ih =>
    intro prev i hi
    cases i with
    | zero => rfl
    | succ j =>
      have hj : j < more.length := by
        simp only [List.length_cons] at hi; omega
      have hrec := ih cur j hj
      simp only [addOverlapGo]
      simpa using hrec

theorem addOverlapGo_length (overlap : Nat) :
    ∀ (l : List Str) (prev : Str), (addOverlapGo overlap prev l).length = l.length := by
  intro l
  induction l with
  | nil => intro prev; rfl
  | cons cur more ih => intro prev; simp [addOverlapGo, ih cur]

theorem addOverlapGo_bound (sz ov : Nat) (hov : 0 < ov) :
    ∀ (l : List Str) (prev : Str), (∀ x ∈ l, x.length ≤ sz) →
      ∀ y ∈ addOverlapGo ov prev l, y.length ≤ sz + ov + 1 := by
  intro l
  induction l with
  | nil => intro prev _ y hy; cases hy
  | cons cur more ih =>
    intro prev hb y hy
    rcases List.mem_cons.mp hy with rfl | hy
    · have h1 := ovSlice_length_le ov hov prev
      have h2 := hb cur (by simp)
      simp only [List.length_append, List.length_cons]
      omega
    · exact ih cur (fun x hx => hb x (List.mem_cons_of_mem _ hx)) y hy

/-- Length bound for the overlap-injection pass: each produced chunk is at
most `chunk_size + chunk_overlap + 1` long when the base chunks are within
`chunk_size`. -/
theorem addOverlap_bound (c : Chunker) (hov : 0 < c.chunk_overlap)
    (chunks : List Str) (hb : ∀ x ∈ chunks, x.length ≤ c.chunk_size) :
    ∀ y ∈ c.addOverlap chunks, y.length ≤ c.chunk_size + c.chunk_overlap + 1 := by
  cases chunks with
  | nil => intro y hy; cases hy
  | cons c0 rest =>
    intro y hy
    rcases List.mem_cons.mp hy with rfl | hy
    · have := hb y (by simp)
      omega
    · exact addOverlapGo_bound c.chunk_size c.chunk_overlap hov rest c0
        (fun x hx => hb x (List.mem_cons_of_mem _ hx)) y hy

/-- The merging loop succeeds whenever the recursive splitter succeeds on
every oversized piece it can be asked about. -/
theorem mergePieces_isSome (size : Nat) (sep : Str) (recur : Str → Option (List Str))
    (hasRem : Bool) :
    ∀ (pieces chunks : List Str) (current : Str),
      (∀ p ∈ pieces, size < p.length → (recur p).isSome) →
      (mergePieces size sep recur hasRem pieces chunks current).isSome := by
  intro pieces
  induction pieces with
  | nil => intro chunks current _; simp [mergePieces]
  | cons piece ps ih =>
    intro chunks current hp
    have hps : ∀ p ∈ ps, size < p.length → (recur p).isSome :=
      fun p hm => hp p (List.mem_cons_of_mem _ hm)
    simp only [mergePieces]
    by_cases hc : (if current = [] then piece else current ++ sep ++ piece).length ≤ size
    · rw [if_pos hc]
      exact ih chunks _ hps
    · rw [if_neg hc]
      by_cases hbig : size < piece.length ∧ hasRem = true
      · rw [if_pos hbig]
        cases hr : recur piece with
        | none =>
          have := hp piece (List.mem_cons_self _ _) hbig.1
          rw [hr] at this
          exact absurd this (by simp)
        | some subs => exact ih _ current hps
      · rw [if_neg hbig]
        exact ih _ piece hps

/-- `_split_text` always succeeds when the `chunk_size` is positive, the
separator list is non-empty and ends with the empty separator, and the fuel
is at least the length of the separator list: the recursion consumes the
separator list head-first, and at the final empty separator every piece is a
single character, so no further recursion happens. -/
theorem splitTextF_isSome (size : Nat) (hsize : 1 ≤ size) :
    ∀ (fuel : Nat) (seps : List Str), seps ≠ [] → seps.getLast? = some [] →
      seps.length ≤ fuel → ∀ text : Str, (splitTextF size fuel text seps).isSome := by
  intro fuel
  induction fuel with
  | zero =>
    intro seps hne _ hlen text
    cases seps with
    | nil => exact absurd rfl hne
    | cons a as => exact absurd hlen (by simp)
  | succ n ih =>
    intro seps hne hlast hlen text
    rw [splitTextF.eq_def]
    simp only
    by_cases hsmall : text.length ≤ size
    · rw [if_pos hsmall]; simp
    · rw [if_neg hsmall]
      cases seps with
      | nil => exact absurd rfl hne
      | cons sep rest =>
        simp only
        rw [Option.isSome_map']
        apply mergePieces_isSome
        intro p hp hbig
        cases rest with
        | nil =>
          have hsep : sep = [] := by simpa using hlast
          subst hsep
          simp only [if_pos rfl] at hp
          rcases List.mem_map.mp hp with ⟨ch, _, rfl⟩
          simp only [List.length_cons, List.length_nil] at hbig
          omega
        | cons r rs =>
          have hrne : (r :: rs : List Str) ≠ [] := by simp
          rw [if_neg hrne]
          have hlast2 : (r :: rs : List Str).getLast? = some [] := by
            simpa using hlast
          have hlen2 : (r :: rs : List Str).length ≤ n := by
            simp only [List.length_cons] at hlen ⊢
            omega
          exact ih (r :: rs) hrne hlast2 hlen2 p

/-! ## Concrete example inputs used by counterexamples and witnesses -/

/-- Input `"ab\n\nABCDEFG\n\ncd"`: the middle paragraph is longer than the chunk
size 5 and forces the recursion branch, after which the loop accumulator
still holds `"ab"` and is appended a second time. -/
def exDupText : Str := ("ab\n\nABCDEFG\n\ncd").data

def exDupSegs : List Str :=
  [("ab").data, ("ABCDE").data, ("FG").data, ("ab").data, ("cd").data]

/-- Input `"aaaa bbbb"`: two word-sized base chunks under chunk size 5. -/
def exWordsText : Str := ("aaaa bbbb").data

/-- The second segment `"aa bbbb"` produced for `exWordsText` with
`chunk_size = 5`, `chunk_overlap = 2`. -/
def exLongSeg : Str := ("aa bbbb").data

/-- Input `". . . . . . "`: every non-whitespace character is consumed as part of
a `". "` separator during splitting, so the chunker returns no segments
although the input text is not whitespace-only. -/
def exDotsText : Str := (". . . . . . ").data

def exDocId : String := "doc-1"
def exFileName : String := "scan.pdf"
def exCollection : String := "default"

/-- Base segments from the spec's own overlap example. -/
def exOverlapChunks : List Str := [("AAAA BBBB CCCC").data, ("DDDD EEEE").data]

/-! ## Claim theorems -/

/-- C1, counterexample: with the valid configuration
`chunk_size = 5`, `chunk_overlap = 2` (so `0 < overlap < size`) and the
non-empty input `"aaaa bbbb"`, `Chunker.chunk` returns the segment
`"aa bbbb"` of length 7 > 5, although that segment contains a space — a
separator boundary — and hence is not a single indivisible unit.  The claim
that every segment is within `chunk_size` unless it is an indivisible
oversized unit is therefore false: the injected overlap ruins the bound. -/
theorem C1_counterexample :
    (0 < 2 ∧ 2 < 5) ∧ strip exWordsText ≠ [] ∧
    Chunker.chunk ⟨5, 2⟩ exWordsText = some [("aaaa").data, exLongSeg] ∧
    exLongSeg.length = 7 ∧ 5 < exLongSeg.length ∧ ' ' ∈ exLongSeg := by
  refine ⟨by decide, by decide, by decide, by decide, by decide, by decide⟩

/-- C1, amended: for every valid configuration (`0 < chunk_overlap <
chunk_size`) and every input, every segment returned by `Chunker.chunk` has
length at most `chunk_size + chunk_overlap + 1` (the base segmentation is
bounded by `chunk_size`; the injected overlap adds at most
`chunk_overlap + 1` characters).  The oversized-indivisible-unit exception
never fires: the empty separator is always available, so `_split_text` never
emits a chunk longer than `chunk_size`. -/
theorem C1_amended_bound (size overlap : Nat) (h0 : 0 < overlap)
    (_hlt : overlap < size) (text : Str) (segs : List Str)
    (h : Chunker.chunk ⟨size, overlap⟩ text = some segs) :
    ∀ s ∈ segs, s.length ≤ size + overlap + 1 := by
  unfold Chunker.chunk at h
  by_cases hstr : strip text = []
  · rw [if_pos hstr] at h
    simp only [Option.some.injEq] at h
    subst h
    intro s hs; cases hs
  · rw [if_neg hstr] at h
    rcases Option.map_eq_some'.mp h with ⟨raw, hraw, hsegs⟩
    have hrawb : ∀ x ∈ raw, x.length ≤ size := splitTextF_bound size 5 text SEPARATORS raw hraw
    intro s hs
    subst hsegs
    have hs2 := List.mem_of_mem_filter hs
    rcases List.mem_map.mp hs2 with ⟨r, hr, rfl⟩
    have hrb : r.length ≤ size + overlap + 1 := by
      by_cases hcond : 0 < overlap ∧ 1 < raw.length
      · rw [if_pos hcond] at hr
        exact addOverlap_bound ⟨size, overlap⟩ h0 raw hrawb r hr
      · rw [if_neg hcond] at hr
        have := hrawb r hr
        omega
    exact Nat.le_trans (strip_length_le r) hrb

/-- Witness for C1's amended bound at `chunk_size = 5`, `chunk_overlap = 2`,
input `"aaaa bbbb"`, segments `["aaaa", "aa bbbb"]`. -/
theorem C1_amended_bound_witness :
    (0 < 2 ∧ 2 < 5 ∧
      Chunker.chunk ⟨5, 2⟩ exWordsText = some [("aaaa").data, exLongSeg]) ∧
    ∀ s ∈ [("aaaa").data, exLongSeg], s.length ≤ 5 + 2 + 1 :=
  ⟨⟨by decide, by decide, by decide⟩,
    C1_amended_bound 5 2 (by decide) (by decide) exWordsText _ (by decide)⟩

/-- C2: the claim that concatenating all core segment contents and removing
whitespace reproduces the input's non-whitespace character sequence is false.
With `chunk_size = 5`, `chunk_overlap = 0` (a valid configuration, and one
with no overlap prefixes to ignore) on the input `"ab\n\nABCDEFG\n\ncd"`,
the code returns `["ab", "ABCDE", "FG", "ab", "cd"]`: the character 'a'
occurs once in the input but twice in the output, because `_split_text`
appends the accumulator `current` to `chunks` before recursing into an
oversized piece but never resets it, so it is appended again later.  This
contradicts the loop's own comment ("save the current chunk and start a new
one"): the code is in error, the claim states the intent. -/
theorem C2_code_evaluation :
    Chunker.chunk ⟨5, 0⟩ exDupText = some exDupSegs ∧
    (exDupText.filter (fun c => !pyIsSpace c)).count 'a' = 1 ∧
    ((exDupSegs.flatten).filter (fun c => !pyIsSpace c)).count 'a' = 2 := by
  refine ⟨by decide, by decide, by decide⟩

/-- C5, counterexample: when the chunker produces an empty segment sequence
for extracted text that is not whitespace-only (input `". . . . . . "`,
chunker `chunk_size = 4`, `chunk_overlap = 2`), `IngestionService.ingest_pdf`
does not fail with a "no content to ingest" input-validation error: it
stores nothing and returns a success result with `chunk_count = 0`. -/
theorem C5_counterexample :
    strip exDotsText ≠ [] ∧
    Chunker.chunk ⟨4, 2⟩ exDotsText = some [] ∧
    IngestionService.ingestPdf ⟨4, 2⟩ exDocId exFileName exCollection exDotsText =
      some { document_id := exDocId, filename := exFileName, chunk_count := 0,
             collection := exCollection, status := successStatus } := by
  refine ⟨by decide, by decide, by decide⟩

/-- C5, amended: `ingest_pdf` performs no emptiness check on the segment
sequence.  Whenever the chunker succeeds it returns a success result whose
`chunk_count` is the number of segments — also when that number is zero, in
which case nothing is stored and no error is raised.  (The only
empty-content failure in the pipeline is upstream: `extract_text_from_pdf`
raises `ValueError` when no page yields text, before the Segmenter runs.) -/
theorem C5_amended_no_check (c : Chunker) (docId filename collection : String)
    (text : Str) (segs : List Str) (h : Chunker.chunk c text = some segs) :
    IngestionService.ingestPdf c docId filename collection text =
      some { document_id := docId, filename := filename,
             chunk_count := segs.length, collection := collection,
             status := successStatus } := by
  unfold IngestionService.ingestPdf
  rw [h]
  rfl

/-- Witness for C5's amended statement at the empty-segment instance. -/
theorem C5_amended_no_check_witness :
    Chunker.chunk ⟨4, 2⟩ exDotsText = some [] ∧
    IngestionService.ingestPdf ⟨4, 2⟩ exDocId exFileName exCollection exDotsText =
      some { document_id := exDocId, filename := exFileName,
             chunk_count := List.length ([] : List Str),
             collection := exCollection, status := successStatus } :=
  ⟨by decide,
    C5_amended_no_check ⟨4, 2⟩ exDocId exFileName exCollection exDotsText [] (by decide)⟩

/-- C6, counterexample: the claim says construction must reject any
configuration in which `chunk_overlap` is not strictly positive.  But
`Chunker(512, 0)` is accepted by the source (`0 >= 512` is false), so the
"only if" direction of the claim fails. -/
theorem C6_counterexample :
    Chunker.make 512 0 = Except.ok ⟨512, 0⟩ ∧ ¬ (0 : Nat) < 0 := by
  exact ⟨rfl, by decide⟩

/-- C6, amended: construction fails with the configuration error if and only
if `chunk_overlap ≥ chunk_size`; strict positivity is not validated
(`chunk_overlap = 0` is accepted for any positive `chunk_size`), and no
validation happens at call time (`Chunker.chunk` never re-checks the
configuration — it is total for valid configurations, see C8). -/
theorem C6_amended_validation (size overlap : Nat) :
    (size ≤ overlap → Chunker.make size overlap = Except.error overlapErrMsg) ∧
    (overlap < size → Chunker.make size overlap = Except.ok ⟨size, overlap⟩) := by
  constructor
  · intro h
    unfold Chunker.make
    rw [if_pos h]
  · intro h
    unfold Chunker.make
    rw [if_neg (Nat.not_le.mpr h)]

/-- Witness for C6's amended statement: the default configuration (512, 50)
is accepted, and (512, 512) is rejected. -/
theorem C6_amended_validation_witness :
    (50 < 512 ∧ Chunker.make 512 50 = Except.ok ⟨512, 50⟩) ∧
    (512 ≤ 512 ∧ Chunker.make 512 512 = Except.error overlapErrMsg) :=
  ⟨⟨by decide, (C6_amended_validation 512 50).2 (by decide)⟩,
    ⟨by decide, (C6_amended_validation 512 512).1 (by decide)⟩⟩

/-- C8: for every validly constructed chunker (`0 < chunk_overlap <
chunk_size`) and every input string, `Chunker.chunk` terminates and raises no
exception: the embedding returns `some` segment list (`none` models both a
raised exception and exhaustion of the recursion-depth fuel, and fuel
`5 = SEPARATORS.length` is enough because the recursion consumes the
separator list head-first and the final empty separator always yields pieces
of length 1 ≤ `chunk_size`). -/
theorem C8_chunk_total (size overlap : Nat) (h0 : 0 < overlap)
    (h1 : overlap < size) (text : Str) :
    (Chunker.chunk ⟨size, overlap⟩ text).isSome := by
  unfold Chunker.chunk
  by_cases hstr : strip text = []
  · rw [if_pos hstr]; simp
  · rw [if_neg hstr]
    rw [Option.isSome_map']
    exact splitTextF_isSome size (by omega) 5 SEPARATORS (by decide) (by decide)
      (by decide) text

/-- Witness for C8 at `chunk_size = 5`, `chunk_overlap = 2`,
input `"aaaa bbbb"`. -/
theorem C8_chunk_total_witness :
    (0 < 2 ∧ 2 < 5) ∧ (Chunker.chunk ⟨5, 2⟩ exWordsText).isSome :=
  ⟨by decide, C8_chunk_total 5 2 (by decide) (by decide) exWordsText⟩

/-- C9: given any base segmentation with at least two segments and
`chunk_overlap > 0`, `_add_overlap` keeps the number of segments, and every
segment `i ≥ 1` of its output is exactly the overlap slice of base segment
`i−1` followed by a space and base segment `i`, where the overlap slice is a
suffix of the trailing `chunk_overlap` characters of segment `i−1` (the raw
trailing slice has length ≤ `chunk_overlap`), obtained by advancing past the
first space found within it (`ovSlice` keeps the raw slice when it contains
no space — its defining fallback). -/
theorem C9_overlap_structure (c : Chunker) (chunks : List Str)
    (hov : 0 < c.chunk_overlap) (hlen : 2 ≤ chunks.length) :
    (c.addOverlap chunks).length = chunks.length ∧
    ∀ i : Nat, i + 1 < chunks.length →
      (c.addOverlap chunks).get? (i + 1) =
        some (ovSlice c.chunk_overlap (chunks.getD i []) ++
          ' ' :: chunks.getD (i + 1) []) ∧
      (ovSlice c.chunk_overlap (chunks.getD i [])).IsSuffix
        (pyTailSlice c.chunk_overlap (chunks.getD i [])) ∧
      (pyTailSlice c.chunk_overlap (chunks.getD i [])).length ≤ c.chunk_overlap := by
  cases chunks with
  | nil => exact absurd hlen (by simp)
  | cons c0 rest =>
    constructor
    · simp [Chunker.addOverlap, addOverlapGo_length]
    · intro i hi
      have hirest : i < rest.length := by
        simp only [List.length_cons] at hi; omega
      refine ⟨?_, ovSlice_suffix _ _, pyTailSlice_length_le _ hov _⟩
      show (c0 :: addOverlapGo c.chunk_overlap c0 rest).get? (i + 1) = _
      rw [List.get?_cons_succ]
      rw [addOverlapGo_get? c.chunk_overlap rest c0 i hirest]
      simp

/-- Witness for C9 on the spec's own example: `chunk_overlap = 10`, base
segments `["AAAA BBBB CCCC", "DDDD EEEE"]`. -/
theorem C9_overlap_structure_witness :
    (0 < 10 ∧ 2 ≤ exOverlapChunks.length) ∧
    ((Chunker.addOverlap ⟨99, 10⟩ exOverlapChunks).length = exOverlapChunks.length ∧
      ∀ i : Nat, i + 1 < exOverlapChunks.length →
        (Chunker.addOverlap ⟨99, 10⟩ exOverlapChunks).get? (i + 1) =
          some (ovSlice 10 (exOverlapChunks.getD i []) ++
            ' ' :: exOverlapChunks.getD (i + 1) []) ∧
        (ovSlice 10 (exOverlapChunks.getD i [])).IsSuffix
          (pyTailSlice 10 (exOverlapChunks.getD i [])) ∧
        (pyTailSlice 10 (exOverlapChunks.getD i [])).length ≤ 10) :=
  ⟨⟨by decide, by decide⟩,
    C9_overlap_structure ⟨99, 10⟩ exOverlapChunks (by decide) (by decide)⟩

/-- Dispatching the stream items of a sources-then-tokens yield sequence
produces a sources event, the token events in order, then the `done` event. -/
theorem eventStream_sources_tokens (s : List Passage) (toks : List String) :
    eventStream (StreamItem.sources s :: toks.map StreamItem.token) =
      Event.sources s :: toks.map Event.token ++ [Event.done] := by
  simp [eventStream, sseOfItem, List.map_map, Function.comp]

/-- C3: for every search result list and every generation token sequence, the
event sequence of the streaming endpoint (`event_stream` over
`RetrieverService.ask_stream`) contains exactly one `sources` event, which is
the very first event (hence precedes every `token` event); the `token`
events carry exactly the generated tokens in generation order (the canned
message as single token when the search is empty); and exactly one `done`
completion marker occurs, as the final event. -/
theorem C3_event_contract (results : List Hit) (tokens : List String) :
    (eventStream (RetrieverService.askStream results tokens).1).countP
        isSourcesEvent = 1 ∧
    (eventStream (RetrieverService.askStream results tokens).1).head? =
      some (Event.sources
        (if results.isEmpty then [] else results.map summarize)) ∧
    (eventStream (RetrieverService.askStream results tokens).1).countP
        isDoneEvent = 1 ∧
    (eventStream (RetrieverService.askStream results tokens).1).getLast? =
      some Event.done ∧
    (eventStream (RetrieverService.askStream results tokens).1).filterMap
        tokenOf? = (if results.isEmpty then [noDocsMessage] else tokens) := by
  by_cases hres : results.isEmpty = true
  · have hr : results = [] := List.isEmpty_iff.mp hres
    subst hr
    exact ⟨rfl, rfl, rfl, rfl, rfl⟩
  · have hres2 : results.isEmpty = false := by
      cases h : results.isEmpty with
      | false => rfl
      | true => exact absurd h hres
    have hstream : (RetrieverService.askStream results tokens).1 =
        StreamItem.sources (results.map summarize) :: tokens.map StreamItem.token := by
      simp [RetrieverService.askStream, hres2]
    simp only [hres2, Bool.false_eq_true, if_false, hstream, eventStream_sources_tokens]
    refine ⟨?_, rfl, ?_, List.getLast?_concat _, ?_⟩
    · rw [List.countP_append, List.countP_cons]
      have hz : List.countP isSourcesEvent (tokens.map Event.token) = 0 := by
        rw [List.countP_eq_zero]
        intro a ha
        rcases List.mem_map.mp ha with ⟨t, _, rfl⟩
        simp [isSourcesEvent]
      rw [hz]
      rfl
    · rw [List.countP_append, List.countP_cons]
      have hz : List.countP isDoneEvent (tokens.map Event.token) = 0 := by
        rw [List.countP_eq_zero]
        intro a ha
        rcases List.mem_map.mp ha with ⟨t, _, rfl⟩
        simp [isDoneEvent]
      rw [hz]
      rfl
    · rw [List.filterMap_append,
        List.filterMap_cons_none
          (show tokenOf? (Event.sources (results.map summarize)) = none from rfl),
        List.filterMap_map]
      have h1 : List.filterMap (tokenOf? ∘ Event.token) tokens = tokens := by
        have h2 : tokenOf? ∘ Event.token = some := by
          funext t; rfl
        rw [h2, List.filterMap_some]
      rw [h1]
      exact List.append_nil tokens

/-- C7: in both query modes, a search returning zero passages short-circuits:
the blocking mode returns the fixed "no documents found" answer with an
empty passage list and zero invocations of the generation port, and the
streaming mode yields the empty sources event and the canned message with
zero invocations of `generate_stream`. -/
theorem C7_empty_search_shortcircuit (question : String)
    (gen : String → List String → String) (tokens : List String) :
    RetrieverService.ask question [] gen =
      { answer := noDocsMessage, sources := [], llmCalls := 0 } ∧
    (RetrieverService.ask question [] gen).llmCalls = 0 ∧
    RetrieverService.askStream [] tokens =
      ([StreamItem.sources [], StreamItem.token noDocsMessage], 0) ∧
    (RetrieverService.askStream [] tokens).2 = 0 :=
  ⟨rfl, rfl, rfl, rfl⟩

/-- C10: on an empty search result in streaming mode, `ask_stream` yields
exactly two items — the sources event with an empty list, then the whole
canned message as one single token — and the endpoint then appends the
completion marker, so the stream is the successful three-event sequence
`[sources [], token noDocsMessage, done]`. -/
theorem C10_empty_stream_shape (tokens : List String) :
    (RetrieverService.askStream [] tokens).1 =
      [StreamItem.sources [], StreamItem.token noDocsMessage] ∧
    (RetrieverService.askStream [] tokens).1.length = 2 ∧
    eventStream (RetrieverService.askStream [] tokens).1 =
      [Event.sources [], Event.token noDocsMessage, Event.done] ∧
    (eventStream (RetrieverService.askStream [] tokens).1).length = 3 ∧
    noDocsMessage = "No documents found. Please upload some documents first." :=
  ⟨rfl, rfl, rfl, rfl, rfl⟩

/-- Monotonicity: `round4` is monotone: rounding to 4 decimal places preserves (weak)
order. -/
theorem round4_mono {q r : ℚ} (h : q ≤ r) : round4 q ≤ round4 r := by
  unfold round4
  have h1 : q * 10000 + 1 / 2 ≤ r * 10000 + 1 / 2 := by linarith
  have h2 : (⌊q * 10000 + 1 / 2⌋ : ℤ) ≤ ⌊r * 10000 + 1 / 2⌋ := Int.floor_le_floor h1
  have h3 : ((⌊q * 10000 + 1 / 2⌋ : ℤ) : ℚ) ≤ ((⌊r * 10000 + 1 / 2⌋ : ℤ) : ℚ) := by
    exact_mod_cast h2
  exact div_le_div_of_nonneg_right h3 (by norm_num)

def exRawA : RawHit := { text := "A", distance := 12341 / 100000, meta := 0 }
def exRawB : RawHit := { text := "B", distance := 12342 / 100000, meta := 1 }

/-- C4, counterexample: the port reports distance `0.12341` for A and
`0.12342` for B (so A's distance is strictly smaller), yet the
consumer-facing similarities `round(1 − d, 4)` coincide at `0.8766`:
rounding to 4 decimal places collapses distances closer than the rounding
step, so the reported similarity for A is *not strictly greater* than that
for B, refuting the claimed strict monotonicity. -/
theorem C4_counterexample :
    exRawA.distance < exRawB.distance ∧
    (VectorStore.search [exRawA, exRawB]).map Hit.score =
      [8766 / 10000, 8766 / 10000] ∧
    ¬ round4 (1 - exRawB.distance) < round4 (1 - exRawA.distance) := by
  refine ⟨by norm_num [exRawA, exRawB], ?_, ?_⟩
  · simp only [VectorStore.search, exRawA, exRawB, List.map_map, List.map_cons,
      List.map_nil, Function.comp, round4]
    norm_num
  · simp only [exRawA, exRawB]
    norm_num [round4]

/-- C4, amended: the conversion `distance ↦ round(1 − distance, 4)` is
*weakly* monotone — a strictly smaller distance yields a greater-or-equal
similarity, with equality possible when the distances differ by less than
the 4-decimal rounding step — and `VectorStore.search` reports results in
the port's order, so whenever the port's distances are (weakly) ascending
the reported similarities are (weakly) descending. -/
theorem C4_amended_weak_monotonicity :
    (∀ a b : ℚ, a < b → round4 (1 - b) ≤ round4 (1 - a)) ∧
    (∀ raw : List RawHit,
      raw.Pairwise (fun x y => x.distance ≤ y.distance) →
      (VectorStore.search raw).Pairwise (fun x y => y.score ≤ x.score)) := by
  constructor
  · intro a b hab
    exact round4_mono (by linarith)
  · intro raw hraw
    unfold VectorStore.search
    rw [List.pairwise_map]
    refine hraw.imp ?_
    intro x y hxy
    exact round4_mono (by linarith)

/-- Witness for C4's amended statement: applies the weak-monotonicity part
at the counterexample's distances and the pairwise part at the two-element
raw result list. -/
theorem C4_amended_weak_monotonicity_witness :
    ((12341 / 100000 : ℚ) < 12342 / 100000 ∧
      round4 (1 - 12342 / 100000) ≤ round4 (1 - 12341 / 100000)) ∧
    ([exRawA, exRawB].Pairwise (fun x y => x.distance ≤ y.distance) ∧
      (VectorStore.search [exRawA, exRawB]).Pairwise (fun x y => y.score ≤ x.score)) :=
  ⟨⟨by norm_num, C4_amended_weak_monotonicity.1 _ _ (by norm_num)⟩,
    ⟨by norm_num [exRawA, exRawB, List.pairwise_cons],
      C4_amended_weak_monotonicity.2 [exRawA, exRawB]
        (by norm_num [exRawA, exRawB, List.pairwise_cons])⟩⟩
